import Mathlib

/-!
Verification development for the FTNV2 news-aggregator repository.

The embedding models the JavaScript sources shallowly:

* JS strings are modelled as `List Char` (`Str`).  Case-insensitive regex
  matching and `toLowerCase` are modelled on the ASCII range, which covers
  every keyword, tag name and test string appearing in the sources.
* JS numbers used as timestamps are modelled as `Int`; `String.fromCharCode`
  truncates its argument modulo 2 ^ 16 exactly as the `ToUint16` conversion
  in JavaScript does.
* `new Date(s).getTime()` (environment-dependent calendar parsing) is
  modelled by an oracle parameter `parseDate : Str → Option Int`, `none`
  standing for an invalid date (`NaN`); `Date.now()` is a parameter `now`.
* Fetching is modelled by an outcome assignment `SourceCfg → Option Str`
  (`none` = rejected promise / failed fetch).

The primary implementation is `src/unnamed/part_000`; the file
`src/api/news.js` contains two further variants of the same endpoint, the
parts of which that claims refer to are modelled separately
(`storeCacheNews` from its guarded cache store, and `parseRSSv1` from its
first parser variant).
-/

namespace FTN

/-- JS strings modelled as lists of characters. -/
abbrev Str := List Char

/-- ASCII lower-casing of one character; models `toLowerCase` and the
regex `i` flag on the ASCII range used by the sources. -/
def lowerC (c : Char) : Char :=
  if 'A' ≤ c ∧ c ≤ 'Z' then Char.ofNat (c.toNat + 32) else c

/-- ASCII-range model of the JS whitespace class `\s` (the characters
actually occurring in feeds: space, tab, newline, carriage return,
vertical tab, form feed). -/
def isJsSpace (c : Char) : Bool :=
  c = ' ' || c = '\t' || c = '\n' || c = '\r' || c = Char.ofNat 11 || c = Char.ofNat 12

/-- Global literal replacement, auxiliary: the pattern is `p :: ps`
(nonempty) and the first argument is recursion fuel (any bound on the
string length suffices, since every step consumes at least one
character).  Mirrors `String.prototype.replace` with a global literal
pattern: leftmost, non-overlapping, replaced text not rescanned. -/
def replStrAuxF (p : Char) (ps rep : Str) : Nat → Str → Str
  | _, [] => []
  | 0, s => s
  | fuel + 1, c :: cs =>
    if (p :: ps).isPrefixOf (c :: cs) then
      rep ++ replStrAuxF p ps rep fuel (cs.drop ps.length)
    else
      c :: replStrAuxF p ps rep fuel cs

theorem replStrAuxF_congr {p : Char} {ps rep : Str} :
    ∀ {f1 f2 : Nat} {s : Str}, s.length ≤ f1 → s.length ≤ f2 →
      replStrAuxF p ps rep f1 s = replStrAuxF p ps rep f2 s := by
  intro f1
  induction f1 with
  | zero =>
    intro f2 s h1 _
    have hs : s = [] := List.eq_nil_of_length_eq_zero (Nat.le_zero.mp h1)
    subst hs
    cases f2 <;> rfl
  | succ f1 ih =>
    intro f2 s h1 h2
    cases s with
    | nil => cases f2 <;> rfl
    | cons c cs =>
      cases f2 with
      | zero => exact absurd h2 (by simp)
      | succ f2 =>
        simp only [replStrAuxF]
        by_cases hp : (p :: ps).isPrefixOf (c :: cs)
        · rw [if_pos hp, if_pos hp]
          simp only [List.length_cons] at h1 h2
          have hd : (cs.drop ps.length).length ≤ cs.length := by
            simp [List.length_drop]
          exact congrArg (rep ++ ·) (ih (by omega) (by omega))
        · rw [if_neg hp, if_neg hp]
          simp only [List.length_cons] at h1 h2
          exact congrArg (c :: ·) (ih (by omega) (by omega))

/-- Global literal replacement with the pattern `p :: ps`, fuel
instantiated to the string length. -/
def replStrAux (p : Char) (ps rep : Str) (s : Str) : Str :=
  replStrAuxF p ps rep s.length s

theorem replStrAux_cons {p : Char} {ps rep : Str} {c : Char} {cs : Str} :
    replStrAux p ps rep (c :: cs)
      = if (p :: ps).isPrefixOf (c :: cs) then
          rep ++ replStrAux p ps rep (cs.drop ps.length)
        else c :: replStrAux p ps rep cs := by
  unfold replStrAux
  show replStrAuxF p ps rep (cs.length + 1) (c :: cs) = _
  simp only [replStrAuxF]
  by_cases hp : (p :: ps).isPrefixOf (c :: cs)
  · rw [if_pos hp, if_pos hp]
    refine congrArg (rep ++ ·) (replStrAuxF_congr ?_ ?_) <;>
      simp [List.length_drop]
  · rw [if_neg hp, if_neg hp]

/-- Global literal replacement `s.replace(/pat/g, rep)` for a literal
pattern. -/
def replStr (pat rep s : Str) : Str :=
  match pat with
  | [] => s
  | p :: ps => replStrAux p ps rep s

/-- Numeric value of a decimal digit string (the `+n` conversion applied by
the source to the digits captured from `&#(\d+);`). -/
def decVal (ds : Str) : Nat :=
  ds.foldl (fun acc c => 10 * acc + (c.toNat - '0'.toNat)) 0

/-- Is `c` a hexadecimal digit (the class `[0-9a-f]` under the regex `i`
flag). -/
def isHexDig (c : Char) : Bool :=
  c.isDigit || ('a' ≤ c && c ≤ 'f') || ('A' ≤ c && c ≤ 'F')

/-- Value of one hexadecimal digit. -/
def hexDigVal (c : Char) : Nat :=
  if c.isDigit then c.toNat - '0'.toNat
  else if 'a' ≤ c ∧ c ≤ 'f' then c.toNat - 'a'.toNat + 10
  else c.toNat - 'A'.toNat + 10

/-- Numeric value of a hexadecimal digit string (`parseInt(h, 16)`). -/
def hexVal (hs : Str) : Nat :=
  hs.foldl (fun acc c => 16 * acc + hexDigVal c) 0

/-- `String.fromCharCode`: the argument is converted by `ToUint16`,
i.e. truncated modulo 2 ^ 16, and yields the UTF-16 code unit with that
value.  For non-surrogate results this is the character with that code
point; surrogate values (which never arise in the theorems below) are not
representable as a `Char` and fall back to `Char.ofNat`'s default. -/
def fromCharCode (n : Nat) : Char :=
  Char.ofNat (n % 65536)

/-- Parse a decimal character reference `&#(\d+);` at the head of the
string; returns the numeric value and the remainder after the `;`. -/
def decRefAt : Str → Option (Nat × Str)
  | '&' :: '#' :: rest =>
    let ds := rest.takeWhile Char.isDigit
    if ds.isEmpty then none
    else
      match rest.drop ds.length with
      | ';' :: rest2 => some (decVal ds, rest2)
      | _ => none
  | _ => none

theorem decRefAt_length {s : Str} {v : Nat} {rest : Str}
    (h : decRefAt s = some (v, rest)) : rest.length < s.length := by
  unfold decRefAt at h
  split at h
  · rename_i rest0
    simp only at h
    split at h
    · exact absurd h (by simp)
    · rename_i hne
      split at h
      · rename_i rest2 hdrop
        injection h with h1
        injection h1 with _ h2
        subst h2
        have hlen : (rest0.drop (rest0.takeWhile Char.isDigit).length).length
            = rest0.length - (rest0.takeWhile Char.isDigit).length := List.length_drop _ _
        rw [hdrop] at hlen
        simp only [List.length_cons] at hlen ⊢
        omega
      · exact absurd h (by simp)
  · exact absurd h (by simp)

/-- Global replacement of decimal character references, fueled:
`s.replace(/&#(\d+);/g, (_, n) => fc(+n))`. -/
def replDecF (fc : Nat → Char) : Nat → Str → Str
  | _, [] => []
  | 0, s => s
  | fuel + 1, c :: cs =>
    match decRefAt (c :: cs) with
    | some (v, rest) => fc v :: replDecF fc fuel rest
    | none => c :: replDecF fc fuel cs

theorem replDecF_congr {fc : Nat → Char} :
    ∀ {f1 f2 : Nat} {s : Str}, s.length ≤ f1 → s.length ≤ f2 →
      replDecF fc f1 s = replDecF fc f2 s := by
  intro f1
  induction f1 with
  | zero =>
    intro f2 s h1 _
    have hs : s = [] := List.eq_nil_of_length_eq_zero (Nat.le_zero.mp h1)
    subst hs
    cases f2 <;> rfl
  | succ f1 ih =>
    intro f2 s h1 h2
    cases s with
    | nil => cases f2 <;> rfl
    | cons c cs =>
      cases f2 with
      | zero => exact absurd h2 (by simp)
      | succ f2 =>
        simp only [replDecF]
        cases hd : decRefAt (c :: cs) with
        | some pr =>
          have hlt := @decRefAt_length (c :: cs) pr.1 pr.2 (by rw [hd])
          simp only [List.length_cons] at h1 h2 hlt
          exact congrArg (fc pr.1 :: ·) (ih (by omega) (by omega))
        | none =>
          simp only [List.length_cons] at h1 h2
          exact congrArg (c :: ·) (ih (by omega) (by omega))

/-- Global replacement of decimal character references. -/
def replDec (fc : Nat → Char) (s : Str) : Str := replDecF fc s.length s

theorem replDec_eq_some {fc : Nat → Char} {c : Char} {cs : Str} {v : Nat}
    {rest : Str} (h : decRefAt (c :: cs) = some (v, rest)) :
    replDec fc (c :: cs) = fc v :: replDec fc rest := by
  unfold replDec
  show replDecF fc (cs.length + 1) (c :: cs) = _
  simp only [replDecF]
  rw [h]
  have hlt := decRefAt_length h
  simp only [List.length_cons] at hlt
  exact congrArg (fc v :: ·) (replDecF_congr (by omega) (by omega))

theorem replDec_eq_none {fc : Nat → Char} {c : Char} {cs : Str}
    (h : decRefAt (c :: cs) = none) :
    replDec fc (c :: cs) = c :: replDec fc cs := by
  unfold replDec
  show replDecF fc (cs.length + 1) (c :: cs) = _
  simp only [replDecF]
  rw [h]

/-- Parse a hexadecimal character reference `&#x([0-9a-f]+);` (with the
`i` flag, so `x`/`X` and both digit cases) at the head of the string. -/
def hexRefAt : Str → Option (Nat × Str)
  | '&' :: '#' :: x :: rest =>
    if x = 'x' ∨ x = 'X' then
      let hs := rest.takeWhile isHexDig
      if hs.isEmpty then none
      else
        match rest.drop hs.length with
        | ';' :: rest2 => some (hexVal hs, rest2)
        | _ => none
    else none
  | _ => none

theorem hexRefAt_length {s : Str} {v : Nat} {rest : Str}
    (h : hexRefAt s = some (v, rest)) : rest.length < s.length := by
  unfold hexRefAt at h
  split at h
  · rename_i x rest0
    split at h
    · simp only at h
      split at h
      · exact absurd h (by simp)
      · split at h
        · rename_i rest2 hdrop
          injection h with h1
          injection h1 with _ h2
          subst h2
          have hlen : (rest0.drop (rest0.takeWhile isHexDig).length).length
              = rest0.length - (rest0.takeWhile isHexDig).length := List.length_drop _ _
          rw [hdrop] at hlen
          simp only [List.length_cons] at hlen ⊢
          omega
        · exact absurd h (by simp)
    · exact absurd h (by simp)
  · exact absurd h (by simp)

/-- Global replacement of hexadecimal character references, fueled:
`s.replace(/&#x([0-9a-f]+);/gi, (_, h) => fc(parseInt(h, 16)))`. -/
def replHexF (fc : Nat → Char) : Nat → Str → Str
  | _, [] => []
  | 0, s => s
  | fuel + 1, c :: cs =>
    match hexRefAt (c :: cs) with
    | some (v, rest) => fc v :: replHexF fc fuel rest
    | none => c :: replHexF fc fuel cs

theorem replHexF_congr {fc : Nat → Char} :
    ∀ {f1 f2 : Nat} {s : Str}, s.length ≤ f1 → s.length ≤ f2 →
      replHexF fc f1 s = replHexF fc f2 s := by
  intro f1
  induction f1 with
  | zero =>
    intro f2 s h1 _
    have hs : s = [] := List.eq_nil_of_length_eq_zero (Nat.le_zero.mp h1)
    subst hs
    cases f2 <;> rfl
  | succ f1 ih =>
    intro f2 s h1 h2
    cases s with
    | nil => cases f2 <;> rfl
    | cons c cs =>
      cases f2 with
      | zero => exact absurd h2 (by simp)
      | succ f2 =>
        simp only [replHexF]
        cases hd : hexRefAt (c :: cs) with
        | some pr =>
          have hlt := @hexRefAt_length (c :: cs) pr.1 pr.2 (by rw [hd])
          simp only [List.length_cons] at h1 h2 hlt
          exact congrArg (fc pr.1 :: ·) (ih (by omega) (by omega))
        | none =>
          simp only [List.length_cons] at h1 h2
          exact congrArg (c :: ·) (ih (by omega) (by omega))

/-- Global replacement of hexadecimal character references. -/
def replHex (fc : Nat → Char) (s : Str) : Str := replHexF fc s.length s

theorem replHex_eq_some {fc : Nat → Char} {c : Char} {cs : Str} {v : Nat}
    {rest : Str} (h : hexRefAt (c :: cs) = some (v, rest)) :
    replHex fc (c :: cs) = fc v :: replHex fc rest := by
  unfold replHex
  show replHexF fc (cs.length + 1) (c :: cs) = _
  simp only [replHexF]
  rw [h]
  have hlt := hexRefAt_length h
  simp only [List.length_cons] at hlt
  exact congrArg (fc v :: ·) (replHexF_congr (by omega) (by omega))

theorem replHex_eq_none {fc : Nat → Char} {c : Char} {cs : Str}
    (h : hexRefAt (c :: cs) = none) :
    replHex fc (c :: cs) = c :: replHex fc cs := by
  unfold replHex
  show replHexF fc (cs.length + 1) (c :: cs) = _
  simp only [replHexF]
  rw [h]

/-- The apostrophe character (code 39), the replacement text for `&#39;`
and `&apos;`. -/
def aposC : Char := Char.ofNat 39

/-- `decodeEntities` from `src/unnamed/part_000` lines 103-109: the fixed
named-entity replacements in source order, then decimal character
references, then hexadecimal ones. -/
def decodeEntities (s : Str) : Str :=
  replHex fromCharCode
    (replDec fromCharCode
      (replStr ("&apos;".toList) [aposC]
        (replStr ("&#39;".toList) [aposC]
          (replStr ("&quot;".toList) ("\"".toList)
            (replStr ("&gt;".toList) (">".toList)
              (replStr ("&lt;".toList) ("<".toList)
                (replStr ("&amp;".toList) ("&".toList) s)))))))

/-! ### Case-insensitive matching and scanning primitives -/

/-- Case-insensitive (ASCII) prefix test, modelling a literal regex
fragment under the `i` flag. -/
def ciIsPrefix (pat s : Str) : Bool :=
  (pat.map lowerC).isPrefixOf (s.map lowerC)

/-- Strip a case-insensitive literal prefix, returning the remainder. -/
def ciStrip (pat s : Str) : Option Str :=
  if ciIsPrefix pat s then some (s.drop pat.length) else none

theorem ciStrip_length_le {pat s r : Str} (h : ciStrip pat s = some r) :
    r.length ≤ s.length := by
  unfold ciStrip at h
  split at h
  · injection h with h1
    subst h1
    simp [List.length_drop]
  · exact absurd h (by simp)

/-- Lazy scan to the leftmost case-insensitive occurrence of `pat`:
returns the text before the occurrence and the text after it.  Models a
regex fragment `([\s\S]*?)pat` under the `i` flag. -/
def splitAtPatCI (pat : Str) : Str → Option (Str × Str)
  | [] => if ciIsPrefix pat [] then some ([], []) else none
  | c :: cs =>
    if ciIsPrefix pat (c :: cs) then some ([], (c :: cs).drop pat.length)
    else (splitAtPatCI pat cs).map (fun pr => (c :: pr.1, pr.2))

theorem splitAtPatCI_length_le {pat s : Str} {pre post : Str}
    (h : splitAtPatCI pat s = some (pre, post)) : post.length ≤ s.length := by
  induction s generalizing pre post with
  | nil =>
    unfold splitAtPatCI at h
    split at h
    · have hp : post = ([] : Str) := congrArg Prod.snd (Option.some.inj h) |>.symm
      subst hp
      exact Nat.le_refl 0
    · exact absurd h (by simp)
  | cons c cs ih =>
    unfold splitAtPatCI at h
    split at h
    · have hp : post = (c :: cs).drop pat.length :=
        congrArg Prod.snd (Option.some.inj h) |>.symm
      subst hp
      simp [List.length_drop]
    · simp only [Option.map_eq_some'] at h
      obtain ⟨⟨pre2, post2⟩, hrec, heq⟩ := h
      have hrec2 := ih hrec
      have hp : post = post2 := congrArg Prod.snd heq |>.symm
      subst hp
      simp only [List.length_cons]
      omega

/-- Try a matcher at every position, left to right (leftmost-match
semantics of `String.prototype.match` without the `g` flag). -/
def scanFor {α : Type} (tryAt : Str → Option α) : Str → Option α
  | [] => tryAt []
  | c :: cs => tryAt (c :: cs) <|> scanFor tryAt cs

/-! ### Open-tag parsing -/

/-- Parse, at the head of `s`, the opening tag `<tag(?:\s[^>]*)?>` (from
`src/unnamed/part_000` `getTag`/`getRawTag`: attributes must be separated
from the tag name by whitespace).  Returns the remainder after `>`. -/
def tryOpenStrict (tag : Str) : Str → Option Str
  | '<' :: rest =>
    match ciStrip tag rest with
    | none => none
    | some r =>
      match r with
      | [] => none
      | '>' :: r2 => some r2
      | c :: r2 =>
        if isJsSpace c then
          match r2.dropWhile (· ≠ '>') with
          | '>' :: r3 => some r3
          | _ => none
        else none
  | _ => none

/-- Parse, at the head of `s`, the looser opening tag `<tag[^>]*>` used by
the first `src/api/news.js` variant.  Returns the remainder after `>`. -/
def tryOpenLoose (tag : Str) : Str → Option Str
  | '<' :: rest =>
    (ciStrip tag rest).bind (fun r =>
      match r.dropWhile (· ≠ '>') with
      | '>' :: r3 => some r3
      | _ => none)
  | _ => none

/-! ### Tag content extraction (`getTag` / `getRawTag`, part_000 lines 111-124) -/

/-- Try the CDATA alternative
`<tag(?:\s[^>]*)?><!\[CDATA\[([\s\S]*?)\]\]></tag>` at the head of `s`,
returning the captured group. -/
def tryCdataAt (tag : Str) (s : Str) : Option Str :=
  (tryOpenStrict tag s).bind (fun r =>
    (ciStrip ("<![CDATA[".toList) r).bind (fun r2 =>
      (splitAtPatCI ("]]></".toList ++ tag ++ ['>']) r2).map Prod.fst))

/-- Try the plain alternative `<tag(?:\s[^>]*)?>([\s\S]*?)</tag>` at the
head of `s`, returning the captured group. -/
def tryPlainAt (tag : Str) (s : Str) : Option Str :=
  (tryOpenStrict tag s).bind (fun r =>
    (splitAtPatCI ("</".toList ++ tag ++ ['>']) r).map Prod.fst)

/-- Global replacement `/<[^>]+>/g → ' '` (nested-tag stripping used by
`getTag` and the description post-processing of part_000), fueled. -/
def stripTagsSpaceF : Nat → Str → Str
  | _, [] => []
  | 0, s => s
  | fuel + 1, '<' :: cs =>
    match cs.dropWhile (· ≠ '>') with
    | '>' :: r =>
      if (cs.takeWhile (· ≠ '>')).isEmpty then '<' :: stripTagsSpaceF fuel cs
      else ' ' :: stripTagsSpaceF fuel r
    | _ => '<' :: stripTagsSpaceF fuel cs
  | fuel + 1, c :: cs => c :: stripTagsSpaceF fuel cs

/-- Global replacement `/<[^>]+>/g → ' '`. -/
def stripTagsSpace (s : Str) : Str := stripTagsSpaceF s.length s

/-- Global replacement `/<[^>]+>/g → ''` (the tag-stripping variant used
by the first `src/api/news.js` parser), fueled. -/
def stripTagsEmptyF : Nat → Str → Str
  | _, [] => []
  | 0, s => s
  | fuel + 1, '<' :: cs =>
    match cs.dropWhile (· ≠ '>') with
    | '>' :: r =>
      if (cs.takeWhile (· ≠ '>')).isEmpty then '<' :: stripTagsEmptyF fuel cs
      else stripTagsEmptyF fuel r
    | _ => '<' :: stripTagsEmptyF fuel cs
  | fuel + 1, c :: cs => c :: stripTagsEmptyF fuel cs

/-- Global replacement `/<[^>]+>/g → ''`. -/
def stripTagsEmpty (s : Str) : Str := stripTagsEmptyF s.length s

/-- Global replacement `/\s+/g → ' '` (whitespace collapsing), fueled. -/
def collapseWsF : Nat → Str → Str
  | _, [] => []
  | 0, s => s
  | fuel + 1, c :: cs =>
    if isJsSpace c then ' ' :: collapseWsF fuel (cs.dropWhile isJsSpace)
    else c :: collapseWsF fuel cs

/-- Global replacement `/\s+/g → ' '`. -/
def collapseWs (s : Str) : Str := collapseWsF s.length s

/-- `String.prototype.trim`: strip JS whitespace from both ends. -/
def trimJs (s : Str) : Str :=
  ((s.dropWhile isJsSpace).reverse.dropWhile isJsSpace).reverse

/-- `getTag` (part_000 lines 111-117): CDATA match anywhere first, then a
plain match anywhere; post-process by stripping nested tags to spaces,
collapsing whitespace, trimming, and decoding entities. -/
def getTag (tag : Str) (xml : Str) : Str :=
  match scanFor (tryCdataAt tag) xml <|> scanFor (tryPlainAt tag) xml with
  | none => []
  | some inner => decodeEntities (trimJs (collapseWs (stripTagsSpace inner)))

/-- `getRawTag` (part_000 lines 119-124): same matches, but the inner
content is only trimmed, not stripped or decoded. -/
def getRawTag (tag : Str) (xml : Str) : Str :=
  match scanFor (tryCdataAt tag) xml <|> scanFor (tryPlainAt tag) xml with
  | none => []
  | some inner => trimJs inner

/-- `String.prototype.includes`: substring test. -/
def containsStr (pat : Str) : Str → Bool
  | [] => pat.isPrefixOf []
  | c :: cs => pat.isPrefixOf (c :: cs) || containsStr pat cs

/-! ### Attribute extraction regexes

A pattern `<TAG[^>]+ATTR="([^"]+)"` matches the literal `<TAG`, then a
nonempty run of non-`>` characters, then the attribute literal, then a
nonempty capture up to the next `"`.  The greedy `[^>]+` makes the engine
pick the rightmost viable occurrence of the attribute literal whose
preceding characters (back to the tag literal) contain no `>`. -/

/-- Candidate remainders after an occurrence of `attr` starting at any
position `≥ 0` of `s` such that every character before it is not `>`
(left-to-right order). -/
def attrCandsGe0 (attr : Str) : Str → List Str
  | [] => if ciIsPrefix attr [] then [[]] else []
  | c :: cs =>
    (if ciIsPrefix attr (c :: cs) then [(c :: cs).drop attr.length] else [])
      ++ (if c = '>' then [] else attrCandsGe0 attr cs)

/-- Candidate remainders for occurrences at positions `≥ 1` (the `[^>]+`
form: at least one character between the tag literal and the attribute). -/
def attrCandsGe1 (attr : Str) : Str → List Str
  | [] => []
  | c :: cs => if c = '>' then [] else attrCandsGe0 attr cs

/-- Capture `([^"]+)"`: a nonempty run of non-quote characters followed by
a closing quote. -/
def capAfter (rem : Str) : Option Str :=
  let v := rem.takeWhile (· ≠ '"')
  if v.isEmpty then none
  else
    match rem.drop v.length with
    | '"' :: _ => some v
    | _ => none

/-- Capture `([^"]*)"`: a possibly empty run of non-quote characters
followed by a closing quote. -/
def capAfter0 (rem : Str) : Option Str :=
  let v := rem.takeWhile (· ≠ '"')
  match rem.drop v.length with
  | '"' :: _ => some v
  | _ => none

/-- Try `tagLit[^>]+attr…` at the head of `s` (greedy `[^>]+`, hence
rightmost candidate first). -/
def tryAttrAt (tagLit attr : Str) (s : Str) : Option Str :=
  (ciStrip tagLit s).bind (fun r => ((attrCandsGe1 attr r).reverse.findSome? capAfter))

/-- Try `tagLit[^>]*attr…` with a possibly-empty capture (the `gattr`
helper of the first `src/api/news.js` variant). -/
def tryAttrAt0 (tagLit attr : Str) (s : Str) : Option Str :=
  (ciStrip tagLit s).bind (fun r => ((attrCandsGe0 attr r).reverse.findSome? capAfter0))

/-- Leftmost match of `tagLit[^>]+attr="([^"]+)"` anywhere in `xml`. -/
def findAttr (tagLit attr : Str) (xml : Str) : Option Str :=
  scanFor (tryAttrAt tagLit attr) xml

/-- `<enclosure[^>]+type="image[^"]*"[^>]+url="([^"]+)"` (part_000 line
130): an enclosure whose `type` starts with `image`, capturing its `url`. -/
def tryEnclosureAt (s : Str) : Option Str :=
  (ciStrip ("<enclosure".toList) s).bind (fun r =>
    (attrCandsGe1 ("type=\"image".toList) r).reverse.findSome? (fun rem =>
      let v := rem.takeWhile (· ≠ '"')
      match rem.drop v.length with
      | '"' :: rem2 => (attrCandsGe1 ("url=\"".toList) rem2).reverse.findSome? capAfter
      | _ => none))

/-- `getThumbnail` (part_000 lines 126-133): media:content URL, then
media:thumbnail URL, then an image-typed enclosure URL, then the first
`<img src>` of the raw description; empty string if none matches. -/
def getThumbnail (itemXml rawDesc : Str) : Str :=
  match findAttr ("<media:content".toList) ("url=\"".toList) itemXml with
  | some m => m
  | none =>
    match findAttr ("<media:thumbnail".toList) ("url=\"".toList) itemXml with
    | some m => m
    | none =>
      match scanFor tryEnclosureAt itemXml with
      | some m => m
      | none =>
        match findAttr ("<img".toList) ("src=\"".toList) rawDesc with
        | some m => m
        | none => []

/-! ### Relevance filter (part_000 lines 58-68) -/

/-- Region keyword set `FL_WORDS` (part_000 line 60). -/
def FL_WORDS : List Str := ["florida".toList, "fl ".toList]

/-- Topic keyword set `CANNA_WORDS` (part_000 line 61), including industry
brand names. -/
def CANNA_WORDS : List Str :=
  ["cannabis".toList, "marijuana".toList, "hemp".toList, "mmj".toList,
   "dispensary".toList, "thc".toList, "cbd".toList, "weed".toList,
   "edible".toList, "cultivation".toList, "trulieve".toList,
   "curaleaf".toList, "surterra".toList, "fluent".toList,
   "vidacann".toList, "canna".toList]

/-- The lower-cased concatenation `(title + ' ' + desc).toLowerCase()`. -/
def lowerText (title desc : Str) : Str :=
  (title ++ ' ' :: desc).map lowerC

/-- `isRelevant` (part_000 lines 63-68): the text must contain at least
one region keyword and at least one topic keyword. -/
def isRelevant (title desc : Str) : Bool :=
  FL_WORDS.any (fun w => containsStr w (lowerText title desc))
    && CANNA_WORDS.any (fun w => containsStr w (lowerText title desc))

/-! ### Article parsing (part_000 lines 135-167) -/

/-- Static source configuration (part_000 `SOURCES`). -/
structure SourceCfg where
  name : Str
  label : Str
  url : Str
deriving DecidableEq, Repr

/-- The canonical article record produced by part_000 `parseRSS`. -/
structure Article where
  title : Str
  link : Str
  description : Str
  thumbnail : Str
  pubDate : Str
  pubTimestamp : Int
  sourceName : Str
  sourceLabel : Str
deriving DecidableEq, Repr

/-- JS `x || y` on strings: the left operand unless it is empty. -/
def orL (a b : Str) : Str := if a.isEmpty then b else a

/-- Extracted title of a raw item block. -/
def titleOf (b : Str) : Str := getTag ("title".toList) b

/-- Extracted link: `getTag(b,'link') || getTag(b,'guid') || ''`. -/
def linkOf (b : Str) : Str :=
  orL (getTag ("link".toList) b) (orL (getTag ("guid".toList) b) [])

/-- Raw (unstripped) description of a block. -/
def rawDescOf (b : Str) : Str := getRawTag ("description".toList) b

/-- Processed description: strip tags to spaces, collapse whitespace,
trim, truncate to 280 characters (part_000 line 147). -/
def descOf (b : Str) : Str :=
  (trimJs (collapseWs (stripTagsSpace (rawDescOf b)))).take 280

/-- Extracted publication date: `getTag(b,'pubDate') || getTag(b,'dc:date') || ''`. -/
def pubDateOf (b : Str) : Str :=
  orL (getTag ("pubDate".toList) b) (orL (getTag ("dc:date".toList) b) [])

/-- JS `startsWith` (case-sensitive). -/
def startsWithL (pre s : Str) : Bool := pre.isPrefixOf s

/-- One iteration of the part_000 `parseRSS` item loop (lines 140-165):
either an article or `none` when the block is discarded.  `pd` models
`s ↦ new Date(s).getTime()` (`none` = `NaN`), `now` models `Date.now()`. -/
def parseItem (pd : Str → Option Int) (now : Int) (src : SourceCfg) (b : Str) :
    Option Article :=
  let title := titleOf b
  let link := linkOf b
  if title.isEmpty || link.isEmpty || !startsWithL ("http".toList) link then none
  else
    let rawDesc := rawDescOf b
    let desc := descOf b
    let pubDate := pubDateOf b
    let ts : Option Int := if pubDate.isEmpty then some now else pd pubDate
    let thumb := getThumbnail b rawDesc
    if !isRelevant title desc then none
    else
      some { title := title, link := link, description := desc,
             thumbnail := if startsWithL ("http".toList) thumb then thumb else [],
             pubDate := pubDate, pubTimestamp := ts.getD now,
             sourceName := src.name, sourceLabel := src.label }

/-- Try the item-block pattern `<item[^>]*>([\s\S]*?)</item>` at the head
of `s`; on success return the captured block and the remainder after the
closing tag. -/
def tryItemAt : Str → Option (Str × Str)
  | '<' :: rest =>
    (ciStrip ("item".toList) rest).bind (fun r =>
      match r.dropWhile (· ≠ '>') with
      | '>' :: r3 => splitAtPatCI ("</item>".toList) r3
      | _ => none)
  | _ => none

theorem tryItemAt_length {s : Str} {b rest : Str}
    (h : tryItemAt s = some (b, rest)) : rest.length < s.length := by
  unfold tryItemAt at h
  split at h
  · rename_i rest0
    simp only [Option.bind_eq_some] at h
    obtain ⟨r, hstrip, h2⟩ := h
    have hr : r.length ≤ rest0.length := ciStrip_length_le hstrip
    split at h2
    · rename_i r3 hdrop
      have hd : (r.dropWhile (· ≠ '>')).length ≤ r.length :=
        (List.dropWhile_sublist _).length_le
      rw [hdrop] at hd
      have hp : rest.length ≤ r3.length := splitAtPatCI_length_le h2
      simp only [List.length_cons] at hd ⊢
      omega
    · exact absurd h2 (by simp)
  · exact absurd h (by simp)

/-- All non-overlapping item blocks of a feed document, in document order
(the `while ((m = re.exec(xml)) !== null)` loop), fueled: by
`tryItemAt_length` every successful match strictly consumes input, so the
document length bounds the recursion. -/
def extractItemsF : Nat → Str → List Str
  | _, [] => []
  | 0, _ => []
  | fuel + 1, c :: cs =>
    match tryItemAt (c :: cs) with
    | some (b, rest) => b :: extractItemsF fuel rest
    | none => extractItemsF fuel cs

/-- All non-overlapping item blocks of a feed document. -/
def extractItems (s : Str) : List Str := extractItemsF s.length s

/-- `parseRSS` (part_000 lines 136-167): one article attempt per item
block, discarded blocks contributing nothing. -/
def parseRSS (pd : Str → Option Int) (now : Int) (xml : Str) (src : SourceCfg) :
    List Article :=
  (extractItems xml).filterMap (parseItem pd now src)

/-! ### Deduplication (part_000 lines 170-178) -/

/-- Characters kept by `replace(/[^a-z0-9]/g, '')`. -/
def isKeyChar (c : Char) : Bool :=
  ('a' ≤ c && c ≤ 'z') || ('0' ≤ c && c ≤ '9')

/-- The dedup key `title.slice(0, 65).toLowerCase().replace(/[^a-z0-9]/g, '')`. -/
def fingerprint (t : Str) : Str :=
  ((t.take 65).map lowerC).filter isKeyChar

/-- The fingerprint as the spec words it: first 65 characters of the
lower-cased title, with all non-alphanumeric characters stripped. -/
def fingerprintSpec (t : Str) : Str :=
  ((t.map lowerC).take 65).filter isKeyChar

/-- The `seen`-set loop of `dedup`, the set modelled as the list of keys
added so far. -/
def dedupAux (seen : List Str) : List Article → List Article
  | [] => []
  | a :: rest =>
    if fingerprint a.title ∈ seen then dedupAux seen rest
    else a :: dedupAux (fingerprint a.title :: seen) rest

/-- `dedup` (part_000 lines 170-178): keep an article only if its
fingerprint has not been seen before. -/
def dedup (items : List Article) : List Article := dedupAux [] items

/-- Spec-side characterisation of first-seen-wins deduplication: keep the
head, drop every later article bearing the same fingerprint, recurse. -/
def keepFirst : List Article → List Article
  | [] => []
  | a :: rest =>
    a :: keepFirst (rest.filter (fun b => fingerprintSpec b.title ≠ fingerprintSpec a.title))
termination_by l => l.length
decreasing_by
  have := List.length_filter_le
    (fun b => decide (fingerprintSpec b.title ≠ fingerprintSpec a.title)) rest
  simp only [List.length_cons]
  omega

/-! ### Ranking (part_000 line 202) -/

/-- The order produced by the comparator `(a, b) => b._pubTimestamp -
a._pubTimestamp`: `a` may come before `b` iff `b`'s timestamp is not
larger. -/
def tsGE (a b : Article) : Prop := b.pubTimestamp ≤ a.pubTimestamp

instance : DecidableRel tsGE := fun a b => inferInstanceAs (Decidable (_ ≤ _))

instance : IsTotal Article tsGE := ⟨fun a b => le_total b.pubTimestamp a.pubTimestamp⟩

instance : IsTrans Article tsGE := ⟨fun _ _ _ hab hbc => le_trans hbc hab⟩

/-- The JS `Array.prototype.sort` call with the timestamp comparator.
ECMAScript requires the sort to be stable, and the comparator is a total
preorder on timestamps, so the result is the unique stable descending
ordering, modelled by insertion sort. -/
def sortByTsDesc (l : List Article) : List Article := List.insertionSort tsGE l

/-- Sort descending by timestamp, then `slice(0, 120)`. -/
def rankTruncate (l : List Article) : List Article := (sortByTsDesc l).take 120

/-! ### Cache and handler (part_000 lines 10-12 and 180-210) -/

/-- The merged result payload. -/
structure Payload where
  ok : Bool
  count : Nat
  fetchedAt : Int
  articles : List Article
deriving DecidableEq, Repr

/-- The process-wide cache `let cache = { data: null, ts: 0 }`. -/
structure CacheSt where
  data : Option Payload
  ts : Int
deriving DecidableEq, Repr

/-- `CACHE_TTL = 5 * 60 * 1000` (milliseconds). -/
def CACHE_TTL : Int := 5 * 60 * 1000

/-- The freshness test `cache.data && Date.now() - cache.ts < CACHE_TTL`. -/
def cacheFresh (c : CacheSt) (now : Int) : Bool :=
  c.data.isSome && decide (now - c.ts < CACHE_TTL)

/-- Cache read: the stored payload when fresh, a miss (`none`) otherwise. -/
def cacheGet (c : CacheSt) (now : Int) : Option Payload :=
  if cacheFresh c now then c.data else none

/-- The part_000 store `cache = { data: payload, ts: Date.now() }`
(line 205): unconditional replacement. -/
def storeCache (p : Payload) (now : Int) : CacheSt := ⟨some p, now⟩

/-- The guarded store of the second `src/api/news.js` variant (lines
239-240): `if (articles.length > 0) CACHE = { data: payload, ts: Date.now() }`. -/
def storeCacheNews (c : CacheSt) (p : Payload) (now : Int) : CacheSt :=
  if 0 < p.articles.length then ⟨some p, now⟩ else c

/-- The eight Florida-targeted sources (part_000 lines 15-56). -/
def SOURCES : List SourceCfg :=
  [⟨"Florida Cannabis".toList, "FL Cannabis".toList,
    "https://news.google.com/rss/search?q=florida+cannabis&hl=en-US&gl=US&ceid=US:en".toList⟩,
   ⟨"Florida Marijuana".toList, "FL Marijuana".toList,
    "https://news.google.com/rss/search?q=florida+marijuana&hl=en-US&gl=US&ceid=US:en".toList⟩,
   ⟨"Florida Hemp".toList, "FL Hemp".toList,
    "https://news.google.com/rss/search?q=florida+hemp&hl=en-US&gl=US&ceid=US:en".toList⟩,
   ⟨"Florida Medical Marijuana".toList, "FL Medical".toList,
    "https://news.google.com/rss/search?q=florida+%22medical+marijuana%22&hl=en-US&gl=US&ceid=US:en".toList⟩,
   ⟨"Florida Dispensary".toList, "FL Dispensary".toList,
    "https://news.google.com/rss/search?q=florida+dispensary+cannabis&hl=en-US&gl=US&ceid=US:en".toList⟩,
   ⟨"Florida MMJ Law".toList, "FL Law".toList,
    "https://news.google.com/rss/search?q=florida+marijuana+law+2025&hl=en-US&gl=US&ceid=US:en".toList⟩,
   ⟨"Florida Cannabis Business".toList, "FL Business".toList,
    "https://news.google.com/rss/search?q=florida+cannabis+business&hl=en-US&gl=US&ceid=US:en".toList⟩,
   ⟨"Florida THC CBD".toList, "FL THC/CBD".toList,
    "https://news.google.com/rss/search?q=florida+thc+OR+cbd+cannabis&hl=en-US&gl=US&ceid=US:en".toList⟩]

/-- The fan-out/fan-in of the handler (part_000 lines 193-201):
`Promise.allSettled` over one fetch-and-parse task per source, then
concatenation of the fulfilled values.  `f` assigns each source its fetch
outcome (`none` = rejection: HTTP error, timeout, transport error). -/
def gatherAll (pd : Str → Option Int) (now : Int) (f : SourceCfg → Option Str) :
    List Article :=
  ((SOURCES.map (fun s => (f s).map (fun xml => parseRSS pd now xml s))).flatMap
    (fun r => r.getD []))

/-- The observable outcome of one handler invocation. -/
structure HandlerOut where
  status : Nat
  body : Option Payload
  xcache : Option Str
  cache : CacheSt
deriving DecidableEq, Repr

/-- The request method string `OPTIONS`. -/
def OPTIONSm : Str := "OPTIONS".toList

/-- The part_000 request handler (lines 181-210), with the clock and the
per-source fetch outcomes injected.  Returns the response and the cache
state after the call. -/
def handler (pd : Str → Option Int) (f : SourceCfg → Option Str) (now : Int)
    (method : Str) (c : CacheSt) : HandlerOut :=
  if method = OPTIONSm then ⟨204, none, none, c⟩
  else if cacheFresh c now then ⟨200, c.data, some ("HIT".toList), c⟩
  else
    let articles := rankTruncate (dedup (gatherAll pd now f))
    let payload : Payload := ⟨true, articles.length, now, articles⟩
    ⟨200, some payload, some ("MISS".toList), storeCache payload now⟩

/-! ### The first `src/api/news.js` variant (lines 5-56 of that document)

Modelled because claim C3 cites its date handling: that parser drops an
item whenever `new Date(pubDate)` is invalid (`if (isNaN(d)) continue`). -/

/-- Source configuration of the first news.js variant (with a color). -/
structure SourceV1 where
  name : Str
  label : Str
  color : Str
  url : Str
deriving DecidableEq, Repr

/-- Article record pushed by the first news.js variant. -/
structure ArticleV1 where
  title : Str
  link : Str
  description : Str
  thumbnail : Str
  pubDate : Str
  source : Str
  sourceLabel : Str
  sourceColor : Str
  category : Str
deriving DecidableEq, Repr

/-- The `decode` helper of the first news.js variant (lines 28-30): named
entities plus a fixed set of specific numeric references. -/
def decodeV1 (s : Str) : Str :=
  replStr ("&#8230;".toList) [Char.ofNat 8230]
    (replStr ("&#8221;".toList) [Char.ofNat 8221]
      (replStr ("&#8220;".toList) [Char.ofNat 8220]
        (replStr ("&#8217;".toList) [Char.ofNat 8217]
          (replStr ("&#039;".toList) [aposC]
            (replStr ("&quot;".toList) ("\"".toList)
              (replStr ("&gt;".toList) (">".toList)
                (replStr ("&lt;".toList) ("<".toList)
                  (replStr ("&amp;".toList) ("&".toList) s))))))))

/-- CDATA alternative of the v1 `get` regex,
`<tag[^>]*><!\[CDATA\[([\s\S]*?)\]\]></tag>`, tried at the head of `s`. -/
def tryCdataLooseAt (tag : Str) (s : Str) : Option Str :=
  (tryOpenLoose tag s).bind (fun r =>
    (ciStrip ("<![CDATA[".toList) r).bind (fun r2 =>
      (splitAtPatCI ("]]></".toList ++ tag ++ ['>']) r2).map Prod.fst))

/-- Plain alternative of the v1 `get` regex, `<tag[^>]*>([\s\S]*?)</tag>`. -/
def tryPlainLooseAt (tag : Str) (s : Str) : Option Str :=
  (tryOpenLoose tag s).bind (fun r =>
    (splitAtPatCI ("</".toList ++ tag ++ ['>']) r).map Prod.fst)

/-- The v1 `get` helper (news.js lines 37-40): a single alternation regex,
so at each position the CDATA alternative is tried before the plain one;
the captured group is trimmed and nothing else is done to it. -/
def getV1 (tag : Str) (b : Str) : Str :=
  match scanFor (fun s => tryCdataLooseAt tag s <|> tryPlainLooseAt tag s) b with
  | none => []
  | some inner => trimJs inner

/-- The v1 `gattr` helper (news.js line 41):
`<tag[^>]*attr="([^"]*)"`, empty string when absent. -/
def gattrV1 (tag attr : Str) (b : Str) : Str :=
  (scanFor (tryAttrAt0 ('<' :: tag) (attr ++ "=\"".toList)) b).getD []

/-- The ordered category keyword table `CATS` (news.js lines 14-20). -/
def CATS : List (Str × List Str) :=
  [("policy".toList,
    ["law".toList, "bill".toList, "senate".toList, "house".toList, "vote".toList,
     "election".toList, "amendment".toList, "regulation".toList, "ban".toList,
     "legal".toList, "policy".toList, "legislature".toList, "governor".toList,
     "tallahassee".toList, "ballot".toList, "court".toList, "arrest".toList,
     "decrim".toList]),
   ("medical".toList,
    ["medical".toList, "patient".toList, "prescription".toList, "doctor".toList,
     "treatment".toList, "thc".toList, "cbd".toList, "health".toList,
     "clinical".toList, "mmj".toList, "qualifying".toList, "pain".toList,
     "ptsd".toList, "cancer".toList, "anxiety".toList, "epilepsy".toList]),
   ("business".toList,
    ["million".toList, "revenue".toList, "market".toList, "invest".toList,
     "stock".toList, "acquisition".toList, "ceo".toList, "company".toList,
     "industry".toList, "profit".toList, "earn".toList, "funding".toList,
     "deal".toList, "valuation".toList, "expansion".toList, "license".toList]),
   ("dispensary".toList,
    ["dispensary".toList, "store".toList, "shop".toList, "retail".toList,
     "menu".toList, "trulieve".toList, "curaleaf".toList, "surterra".toList,
     "liberty".toList, "green thumb".toList, "location".toList, "open".toList,
     "purchase".toList, "buy".toList]),
   ("lifestyle".toList,
    ["recipe".toList, "food".toList, "strain".toList, "review".toList,
     "product".toList, "terpene".toList, "edible".toList, "vape".toList,
     "flower".toList, "culture".toList, "lifestyle".toList, "wellness".toList,
     "sleep".toList, "smoke".toList, "grow".toList])]

/-- `detectCat` (news.js lines 22-26): first category whose keyword list
matches the lower-cased title+description; `general` otherwise. -/
def detectCat (title desc : Str) : Str :=
  match CATS.find? (fun p => p.2.any (fun k => containsStr k (lowerText title desc))) with
  | some p => p.1
  | none => "general".toList

/-- One iteration of the v1 `parseRSS` item loop (news.js lines 35-54).
`pd` models `s ↦ new Date(s)` (`none` = invalid date), `iso` models
`Date.prototype.toISOString`, `now` models `new Date()` / `Date.now()`.
Note the `if (isNaN(d)) continue` line: an unparsable nonempty `pubDate`
discards the whole item. -/
def parseItemV1 (pd : Str → Option Int) (iso : Int → Str) (now : Int)
    (src : SourceV1) (b : Str) : Option ArticleV1 :=
  let title := getV1 ("title".toList) b
  let link := orL (getV1 ("link".toList) b) (gattrV1 ("link".toList) ("href".toList) b)
  if title.isEmpty || link.isEmpty then none
  else
    let pubDate := orL (getV1 ("pubDate".toList) b)
      (orL (getV1 ("dc:date".toList) b) (getV1 ("published".toList) b))
    let d : Option Int := if pubDate.isEmpty then some now else pd pubDate
    match d with
    | none => none
    | some dts =>
      let rawDesc := (trimJs (stripTagsEmpty (getV1 ("description".toList) b))).take 300
      let thumb := orL (gattrV1 ("media:thumbnail".toList) ("url".toList) b)
        (orL (gattrV1 ("media:content".toList) ("url".toList) b)
          (orL (gattrV1 ("enclosure".toList) ("url".toList) b) []))
      some { title := decodeV1 title, link := link, description := decodeV1 rawDesc,
             thumbnail := thumb, pubDate := iso dts,
             source := src.name, sourceLabel := src.label,
             sourceColor := src.color, category := detectCat title rawDesc }

/-- The v1 `parseRSS` (news.js lines 32-56). -/
def parseRSSv1 (pd : Str → Option Int) (iso : Int → Str) (now : Int)
    (xml : Str) (src : SourceV1) : List ArticleV1 :=
  (extractItems xml).filterMap (parseItemV1 pd iso now src)

/-! ## Shared concrete inputs for the theorems -/

/-- A date oracle on which every nonempty date string is unparsable. -/
def pd0 : Str → Option Int := fun _ => none

/-- A trivial ISO-format oracle. -/
def iso0 : Int → Str := fun _ => []

/-- A sample source configuration. -/
def srcSample : SourceCfg := ⟨"n".toList, "l".toList, "u".toList⟩

/-- An empty sample payload. -/
def samplePayload : Payload := ⟨true, 0, 0, []⟩

/-- A sample article (as produced from a relevant, valid block). -/
def sampleArticle : Article :=
  ⟨"Florida cannabis news".toList, "http://a.com/x".toList, [], [], [], 0,
   "n".toList, "l".toList⟩

/-! ## Claim theorems -/

/-- C6: for every cache state with a stored payload built at `builtAt` and
request time `now`, a get with `now - builtAt < TTL` returns the stored
payload unchanged and triggers no rebuild (the handler response does not
depend on the fetch outcomes); with `now - builtAt ≥ TTL`, or with no
stored payload, it signals a miss; in particular `builtAt + TTL - 1` is a
hit and `builtAt + TTL + 1` is a miss. -/
theorem cache_freshness_spec :
    (∀ (p : Payload) (t now : Int), now - t < CACHE_TTL →
        cacheGet ⟨some p, t⟩ now = some p) ∧
    (∀ (p : Payload) (t now : Int), CACHE_TTL ≤ now - t →
        cacheGet ⟨some p, t⟩ now = none) ∧
    (∀ (t now : Int), cacheGet ⟨none, t⟩ now = none) ∧
    (∀ (p : Payload) (t : Int), cacheGet ⟨some p, t⟩ (t + CACHE_TTL - 1) = some p) ∧
    (∀ (p : Payload) (t : Int), cacheGet ⟨some p, t⟩ (t + CACHE_TTL + 1) = none) ∧
    (∀ (pd : Str → Option Int) (f g : SourceCfg → Option Str) (now : Int)
        (m : Str) (c : CacheSt), cacheFresh c now = true →
        handler pd f now m c = handler pd g now m c) := by
  refine ⟨?_, ?_, ?_, ?_, ?_, ?_⟩
  · intro p t now h
    simp [cacheGet, cacheFresh, h]
  · intro p t now h
    simp [cacheGet, cacheFresh]
    omega
  · intro t now
    simp [cacheGet, cacheFresh]
  · intro p t
    simp [cacheGet, cacheFresh]
    omega
  · intro p t
    simp [cacheGet, cacheFresh]
    omega
  · intro pd f g now m c hfresh
    unfold handler
    by_cases hm : m = OPTIONSm
    · simp [hm]
    · simp [hm, hfresh]

/-- Witness for C6 at concrete inputs. -/
theorem cache_freshness_witness :
    cacheGet ⟨some samplePayload, 0⟩ 299999 = some samplePayload ∧
    cacheGet ⟨some samplePayload, 0⟩ 300001 = none ∧
    handler pd0 (fun _ => none) 10 ("GET".toList) ⟨some samplePayload, 0⟩
      = handler pd0 (fun _ => some ("x".toList)) 10 ("GET".toList)
          ⟨some samplePayload, 0⟩ :=
  ⟨cache_freshness_spec.1 samplePayload 0 299999 (by decide),
   cache_freshness_spec.2.1 samplePayload 0 300001 (by decide),
   cache_freshness_spec.2.2.2.2.2 pd0 (fun _ => none) (fun _ => some ("x".toList))
     10 ("GET".toList) ⟨some samplePayload, 0⟩ (by decide)⟩

/-- C10: when the cache is stale (or empty) and every configured source
fetch fails, the handler still responds with status 200 and the payload
`ok = true, count = 0, articles = []`. -/
theorem total_outage_200 (pd : Str → Option Int) (f : SourceCfg → Option Str)
    (now : Int) (m : Str) (c : CacheSt)
    (hm : m ≠ OPTIONSm) (hstale : cacheFresh c now = false)
    (hf : ∀ s, f s = none) :
    (handler pd f now m c).status = 200 ∧
    (handler pd f now m c).body = some ⟨true, 0, now, []⟩ := by
  have hg : gatherAll pd now f = [] := by
    simp [gatherAll, hf]
  have hbody : handler pd f now m c
      = ⟨200, some ⟨true, 0, now, []⟩, some ("MISS".toList),
         storeCache ⟨true, 0, now, []⟩ now⟩ := by
    unfold handler
    rw [if_neg hm, if_neg (by simp [hstale])]
    simp [hg, rankTruncate, sortByTsDesc, dedup, dedupAux, List.insertionSort]
  rw [hbody]
  exact ⟨rfl, rfl⟩

/-- Witness for C10 at concrete inputs. -/
theorem total_outage_200_witness :
    (handler pd0 (fun _ => none) 5 ("GET".toList) ⟨none, 0⟩).status = 200 ∧
    (handler pd0 (fun _ => none) 5 ("GET".toList) ⟨none, 0⟩).body
      = some ⟨true, 0, 5, []⟩ :=
  total_outage_200 pd0 (fun _ => none) 5 ("GET".toList) ⟨none, 0⟩
    (by decide) (by decide) (fun _ => rfl)

/-- C1 (code-bug evidence): with a stale cache holding a one-article
payload and every fetch failing, the part_000 handler overwrites the
cache with the fresh empty payload (its store on line 205 is
unconditional), whereas the guarded store of the news.js variant keeps
the previous non-empty payload. -/
theorem empty_rebuild_overwrites_cache :
    (handler pd0 (fun _ => none) CACHE_TTL ("GET".toList)
        ⟨some ⟨true, 1, 0, [sampleArticle]⟩, 0⟩).cache
      = ⟨some ⟨true, 0, CACHE_TTL, []⟩, CACHE_TTL⟩ ∧
    (⟨true, 1, 0, [sampleArticle]⟩ : Payload).articles.length = 1 ∧
    storeCacheNews ⟨some ⟨true, 1, 0, [sampleArticle]⟩, 0⟩
        ⟨true, 0, CACHE_TTL, []⟩ CACHE_TTL
      = ⟨some ⟨true, 1, 0, [sampleArticle]⟩, 0⟩ := by
  refine ⟨by decide, rfl, by decide⟩

/-- Auxiliary: the settled-then-concatenate pipeline over any source list
equals the concatenation of the successful parses. -/
theorem settledFlat_eq (pd : Str → Option Int) (now : Int)
    (f : SourceCfg → Option Str) (l : List SourceCfg) :
    (l.map (fun s => (f s).map (fun xml => parseRSS pd now xml s))).flatMap
        (fun r => r.getD [])
      = (l.map (fun s =>
          match f s with
          | some xml => parseRSS pd now xml s
          | none => [])).flatten := by
  induction l with
  | nil => rfl
  | cons s l ih =>
    simp only [List.map_cons, List.flatMap_cons, List.flatten_cons, ih]
    cases f s <;> rfl

/-- C8: for every assignment of per-source fetch outcomes, the
orchestrator output is the concatenation of the parsed article lists of
exactly the successful sources, in source-configuration order with
in-document order preserved; marking any one source as failed removes
exactly its own contribution. -/
theorem gather_concat_spec (pd : Str → Option Int) (now : Int) :
    (∀ f : SourceCfg → Option Str,
        gatherAll pd now f
          = (SOURCES.map (fun s =>
              match f s with
              | some xml => parseRSS pd now xml s
              | none => [])).flatten) ∧
    (∀ (f : SourceCfg → Option Str) (s0 : SourceCfg),
        gatherAll pd now (Function.update f s0 none)
          = (SOURCES.map (fun s =>
              if s = s0 then []
              else
                match f s with
                | some xml => parseRSS pd now xml s
                | none => [])).flatten) := by
  constructor
  · intro f
    exact settledFlat_eq pd now f SOURCES
  · intro f s0
    unfold gatherAll
    rw [settledFlat_eq pd now (Function.update f s0 none) SOURCES]
    congr 1
    apply List.map_congr_left
    intro s _
    by_cases hs : s = s0
    · subst hs
      simp [Function.update_same]
    · simp [Function.update_noteq hs, hs]

/-- `String.prototype.includes` agrees with list-infix containment. -/
theorem containsStr_iff {p s : Str} : containsStr p s = true ↔ p <:+: s := by
  induction s with
  | nil =>
    simp only [containsStr, List.isPrefixOf_iff_prefix]
    constructor
    · intro h
      exact h.isInfix
    · intro h
      exact (List.eq_nil_of_infix_nil h) ▸ List.prefix_refl _
  | cons c cs ih =>
    simp only [containsStr, Bool.or_eq_true, List.isPrefixOf_iff_prefix, ih,
      List.infix_cons_iff]

/-- C9: the admission filter lower-cases the concatenated title and
description and admits exactly when at least one region keyword and at
least one topic keyword occur as substrings; in particular the Florida
marijuana-bill title is admitted and the California one rejected. -/
theorem isRelevant_admission :
    (∀ title desc : Str,
        isRelevant title desc = true ↔
          ((∃ w ∈ FL_WORDS, w <:+: lowerText title desc) ∧
           (∃ w ∈ CANNA_WORDS, w <:+: lowerText title desc))) ∧
    isRelevant ("Florida House Advances Marijuana Bill".toList) [] = true ∧
    isRelevant ("California Marijuana Bill".toList) [] = false := by
  refine ⟨?_, by decide, by decide⟩
  intro t d
  simp [isRelevant, List.any_eq_true, containsStr_iff]

/-- The feed document of the C2 counterexample: one item whose title and
link pass the validation gate but whose text is not relevant. -/
def docIrrelevant : Str :=
  "<item><title>Hello</title><link>http://a.com</link></item>".toList

/-- The raw item block inside `docIrrelevant`. -/
def blockIrrelevant : Str :=
  "<title>Hello</title><link>http://a.com</link>".toList

/-- C2 counterexample: a block in a feed document with non-empty title,
non-empty link, and a link starting with the URL scheme prefix, from
which no article is emitted (the relevance gate rejects it), refuting
the if-and-only-if as stated. -/
theorem validation_gate_counterexample :
    blockIrrelevant ∈ extractItems docIrrelevant ∧
    titleOf blockIrrelevant ≠ [] ∧
    linkOf blockIrrelevant ≠ [] ∧
    startsWithL ("http".toList) (linkOf blockIrrelevant) = true ∧
    parseItem pd0 0 srcSample blockIrrelevant = none ∧
    parseRSS pd0 0 docIrrelevant srcSample = [] := by
  refine ⟨by decide, by decide, by decide, by decide, by decide, by decide⟩

/-- C2 (amended): for every raw item block of a feed document, an article
is emitted if and only if the extracted title is non-empty, the extracted
link is non-empty and starts with the URL scheme prefix `http`, and the
relevance filter admits the extracted title and processed description;
failing blocks contribute nothing. -/
theorem validation_gate (pd : Str → Option Int) (now : Int) (src : SourceCfg)
    (xml : Str) (b : Str) (hb : b ∈ extractItems xml) :
    (parseItem pd now src b).isSome = true ↔
      (titleOf b ≠ [] ∧ linkOf b ≠ [] ∧
       startsWithL ("http".toList) (linkOf b) = true ∧
       isRelevant (titleOf b) (descOf b) = true) := by
  clear hb
  unfold parseItem
  by_cases hT : titleOf b = []
  · rw [if_pos (by simp [hT])]
    simp [hT]
  · by_cases hL : linkOf b = []
    · rw [if_pos (by simp [hL])]
      simp [hL]
    · by_cases hS : startsWithL ("http".toList) (linkOf b) = true
      · have hS2 : startsWithL ('h' :: 't' :: 't' :: 'p' :: []) (linkOf b) = true := hS
        rw [if_neg (by simp [List.isEmpty_iff, hT, hL, hS2])]
        by_cases hR : isRelevant (titleOf b) (descOf b) = true
        · rw [if_neg (by simp [hR])]
          simp [hT, hL, hS2, hR]
        · have hRf : isRelevant (titleOf b) (descOf b) = false :=
            Bool.eq_false_iff.mpr hR
          rw [if_pos (by simp [hRf])]
          simp [hR]
      · have hsw2 : startsWithL ('h' :: 't' :: 't' :: 'p' :: []) (linkOf b) = false :=
          Bool.eq_false_iff.mpr hS
        rw [if_pos (by simp [hsw2])]
        simp [hsw2]

/-- The feed document of the C2 witness: a valid, relevant item. -/
def docRelevant : Str :=
  "<item><title>Florida cannabis news</title><link>http://a.com/x</link></item>".toList

/-- The raw item block inside `docRelevant`. -/
def blockRelevant : Str :=
  "<title>Florida cannabis news</title><link>http://a.com/x</link>".toList

/-- Witness for C2 at a concrete block of a concrete feed document. -/
theorem validation_gate_witness :
    (parseItem pd0 0 srcSample blockRelevant).isSome = true ↔
      (titleOf blockRelevant ≠ [] ∧ linkOf blockRelevant ≠ [] ∧
       startsWithL ("http".toList) (linkOf blockRelevant) = true ∧
       isRelevant (titleOf blockRelevant) (descOf blockRelevant) = true) :=
  validation_gate pd0 0 srcSample docRelevant blockRelevant (by decide)

/-- The feed document of the C3 failing input: valid title and link but an
unparsable `pubDate`. -/
def docBadDate : Str :=
  "<item><title>T</title><link>http://a</link><pubDate>garbage</pubDate></item>".toList

/-- The raw item block inside `docBadDate`. -/
def blockBadDate : Str :=
  "<title>T</title><link>http://a</link><pubDate>garbage</pubDate>".toList

/-- A source configuration for the v1 parser. -/
def srcV1Sample : SourceV1 := ⟨"n".toList, "l".toList, "c".toList, "u".toList⟩

/-- C3 (code-bug evidence): on the first `src/api/news.js` parser, an
item block whose nonempty `pubDate` fails to parse is dropped entirely
(`if (isNaN(d)) continue`), although its title and link validation
passes — contradicting the recover-with-ingestion-time policy (which
part_000 line 161 does implement). -/
theorem bad_date_drops_item :
    parseRSSv1 pd0 iso0 0 docBadDate srcV1Sample = [] ∧
    blockBadDate ∈ extractItems docBadDate ∧
    getV1 ("title".toList) blockBadDate ≠ [] ∧
    getV1 ("link".toList) blockBadDate ≠ [] ∧
    getV1 ("pubDate".toList) blockBadDate ≠ [] ∧
    pd0 (getV1 ("pubDate".toList) blockBadDate) = none := by
  refine ⟨by decide, by decide, by decide, by decide, by decide, rfl⟩

/-- The fingerprint built by the source (slice, then lower-case, then
strip) agrees with the spec reading (lower-case, then slice, then strip):
character-wise lower-casing commutes with taking a prefix. -/
theorem fingerprint_eq_spec (t : Str) : fingerprint t = fingerprintSpec t := by
  unfold fingerprint fingerprintSpec
  rw [List.map_take]

theorem decide_notMem_cons {x y : Str} {seen : List Str} :
    (decide (fingerprintSpec x ≠ fingerprintSpec y)
        && decide (fingerprint x ∉ seen))
      = decide (fingerprint x ∉ fingerprint y :: seen) := by
  rw [fingerprint_eq_spec x, fingerprint_eq_spec y]
  by_cases h1 : fingerprintSpec x = fingerprintSpec y <;>
    by_cases h2 : fingerprintSpec x ∈ seen <;>
      simp [h1, h2, List.mem_cons]

theorem keepFirst_nil : keepFirst [] = [] := by
  simp [keepFirst]

theorem keepFirst_cons (a : Article) (l : List Article) :
    keepFirst (a :: l)
      = a :: keepFirst
          (l.filter (fun b => fingerprintSpec b.title ≠ fingerprintSpec a.title)) := by
  simp [keepFirst]

theorem dedupAux_eq_keepFirst (seen : List Str) (l : List Article) :
    dedupAux seen l
      = keepFirst (l.filter (fun a => decide (fingerprint a.title ∉ seen))) := by
  induction l generalizing seen with
  | nil => simp [dedupAux, keepFirst_nil]
  | cons a rest ih =>
    by_cases hmem : fingerprint a.title ∈ seen
    · rw [show dedupAux seen (a :: rest) = dedupAux seen rest by
        simp [dedupAux, hmem]]
      rw [ih seen]
      congr 1
      simp [List.filter_cons, hmem]
    · rw [show dedupAux seen (a :: rest)
          = a :: dedupAux (fingerprint a.title :: seen) rest by
        simp [dedupAux, hmem]]
      rw [ih (fingerprint a.title :: seen)]
      have hfc : (a :: rest).filter (fun a => decide (fingerprint a.title ∉ seen))
          = a :: rest.filter (fun a => decide (fingerprint a.title ∉ seen)) := by
        simp [List.filter_cons, hmem]
      have hff : (rest.filter (fun x => decide (fingerprint x.title ∉ seen))).filter
            (fun x => decide (fingerprintSpec x.title ≠ fingerprintSpec a.title))
          = rest.filter
              (fun x => decide (fingerprint x.title ∉ fingerprint a.title :: seen)) := by
        rw [List.filter_filter]
        exact List.filter_congr (fun x _ => decide_notMem_cons)
      rw [hfc, keepFirst_cons, hff]

/-- The two sample articles of the C4 collapse example: titles differing
only in case and punctuation inside the 65-character window. -/
def artPunctA : Article :=
  ⟨"Florida OKs New Cannabis Rules!".toList, "http://a".toList, [], [], [], 5,
   "s1".toList, "l1".toList⟩

/-- Second sample article for the collapse example. -/
def artPunctB : Article :=
  ⟨"florida oks new cannabis rules".toList, "http://b".toList, [], [], [], 9,
   "s2".toList, "l2".toList⟩

/-- C4: deduplication keys each article by the first 65 characters of the
lower-cased title with non-alphanumeric characters stripped
(65 lies in the stated 60-70 window), and keeps exactly the first article
bearing each key; in particular two articles whose titles differ only in
case and punctuation inside the window collapse to the earlier one. -/
theorem dedup_first_seen_wins :
    (∀ t : Str, fingerprint t = fingerprintSpec t) ∧
    (∀ items : List Article, dedup items = keepFirst items) ∧
    dedup [artPunctA, artPunctB] = [artPunctA] := by
  refine ⟨fingerprint_eq_spec, ?_, by decide⟩
  intro items
  rw [dedup, dedupAux_eq_keepFirst]
  congr 1
  simp

theorem filter_orderedInsert (t : Int) (a : Article) (l : List Article) :
    (List.orderedInsert tsGE a l).filter (fun x => decide (x.pubTimestamp = t))
      = if a.pubTimestamp = t
        then a :: l.filter (fun x => decide (x.pubTimestamp = t))
        else l.filter (fun x => decide (x.pubTimestamp = t)) := by
  induction l with
  | nil =>
    by_cases h : a.pubTimestamp = t <;> simp [List.orderedInsert, h]
  | cons b l ih =>
    by_cases hr : tsGE a b
    · by_cases ha : a.pubTimestamp = t <;>
        simp [List.orderedInsert, hr, List.filter_cons, ha]
    · by_cases ha : a.pubTimestamp = t
      · have hbt : ¬ b.pubTimestamp = t := by
          simp only [tsGE] at hr
          omega
        simp [List.orderedInsert, hr, List.filter_cons, ha, hbt, ih]
      · by_cases hbt : b.pubTimestamp = t <;>
          simp [List.orderedInsert, hr, List.filter_cons, ha, hbt, ih]

theorem filter_sortByTsDesc (t : Int) (l : List Article) :
    (sortByTsDesc l).filter (fun x => decide (x.pubTimestamp = t))
      = l.filter (fun x => decide (x.pubTimestamp = t)) := by
  induction l with
  | nil => rfl
  | cons a l ih =>
    simp only [sortByTsDesc, List.insertionSort] at ih ⊢
    rw [filter_orderedInsert]
    by_cases ha : a.pubTimestamp = t <;> simp [ha, List.filter_cons, ih]

/-- C7: the finalized list is sorted by timestamp descending, equal
timestamps keep their input order (the per-timestamp subsequences of the
sorted list equal those of the input), the sort is a permutation, and the
output is the 120-entry truncation of the sorted list, hence never longer
than 120 even for larger inputs. -/
theorem ranking_sorted_truncated (l : List Article) :
    List.Sorted tsGE (rankTruncate l) ∧
    (rankTruncate l).length = min 120 l.length ∧
    (∀ t : Int, (sortByTsDesc l).filter (fun x => decide (x.pubTimestamp = t))
        = l.filter (fun x => decide (x.pubTimestamp = t))) ∧
    rankTruncate l = (sortByTsDesc l).take 120 ∧
    (sortByTsDesc l).Perm l := by
  refine ⟨?_, ?_, fun t => filter_sortByTsDesc t l, rfl,
    List.perm_insertionSort _ _⟩
  · exact List.Pairwise.sublist (List.take_sublist _ _)
      (List.sorted_insertionSort tsGE l)
  · have hlen := (List.perm_insertionSort tsGE l).length_eq
    simp only [rankTruncate, List.length_take, sortByTsDesc]
    omega

/-! ### Lemmas for the entity decoder (claim C5) -/

theorem replStrAux_nil {p : Char} {ps rep : Str} : replStrAux p ps rep [] = [] := rfl

theorem replStrAux_of_not_infix {p : Char} {ps rep : Str} :
    ∀ {s : Str}, ¬ ((p :: ps) <:+: s) → replStrAux p ps rep s = s := by
  intro s
  induction s with
  | nil => intro _; rfl
  | cons c cs ih =>
    intro h
    rw [replStrAux_cons]
    have hpre : ¬ (p :: ps).isPrefixOf (c :: cs) = true := by
      intro hp
      exact h (List.isPrefixOf_iff_prefix.mp hp).isInfix
    rw [if_neg hpre]
    exact congrArg (c :: ·) (ih (fun hinf => h (List.infix_cons_iff.mpr (Or.inr hinf))))

theorem replStr_of_not_infix {pat rep s : Str} (h : ¬ pat <:+: s) :
    replStr pat rep s = s := by
  cases pat with
  | nil => exact absurd (List.nil_infix) h
  | cons p ps => exact replStrAux_of_not_infix h

theorem decRefAt_none_of_no_amp {s : Str} (h : '&' ∉ s) : decRefAt s = none := by
  unfold decRefAt
  split
  · exact absurd (List.mem_cons_self _ _) h
  · rfl

theorem replDec_of_no_amp {fc : Nat → Char} :
    ∀ {s : Str}, '&' ∉ s → replDec fc s = s := by
  intro s
  induction s with
  | nil => intro _; rfl
  | cons c cs ih =>
    intro h
    rw [replDec_eq_none (decRefAt_none_of_no_amp h)]
    exact congrArg (c :: ·) (ih (fun hm => h (List.mem_cons_of_mem _ hm)))

theorem hexRefAt_none_of_no_amp {s : Str} (h : '&' ∉ s) : hexRefAt s = none := by
  unfold hexRefAt
  split
  · exact absurd (List.mem_cons_self _ _) h
  · rfl

theorem replHex_of_no_amp {fc : Nat → Char} :
    ∀ {s : Str}, '&' ∉ s → replHex fc s = s := by
  intro s
  induction s with
  | nil => intro _; rfl
  | cons c cs ih =>
    intro h
    rw [replHex_eq_none (hexRefAt_none_of_no_amp h)]
    exact congrArg (c :: ·) (ih (fun hm => h (List.mem_cons_of_mem _ hm)))

theorem hexRefAt_one (fcc : Char) : hexRefAt [fcc] = none := by
  unfold hexRefAt
  split
  · rename_i x rest heq
    exact absurd (congrArg List.length heq) (by simp)
  · rfl

theorem replHex_one {fc : Nat → Char} (c : Char) : replHex fc [c] = [c] := by
  rw [replHex_eq_none (hexRefAt_one c)]
  rfl

theorem takeWhile_append_sentinel {p : Char → Bool} {ds rest : Str}
    (h : ∀ c ∈ ds, p c = true) (hs : p ';' = false) :
    (ds ++ ';' :: rest).takeWhile p = ds := by
  induction ds with
  | nil => simp [List.takeWhile_cons, hs]
  | cons d ds ih =>
    have hd := h d (List.mem_cons_self _ _)
    simp [List.takeWhile_cons, hd,
      ih (fun c hc => h c (List.mem_cons_of_mem _ hc))]

theorem decRefAt_of_digits {ds rest : Str} (hne : ds ≠ [])
    (h : ∀ c ∈ ds, Char.isDigit c = true) :
    decRefAt ('&' :: '#' :: (ds ++ ';' :: rest)) = some (decVal ds, rest) := by
  unfold decRefAt
  simp only
  rw [takeWhile_append_sentinel h (by decide)]
  rw [if_neg (by simp [List.isEmpty_iff, hne])]
  rw [List.drop_left]
  rfl

theorem replDec_ref {fc : Nat → Char} {ds : Str} (hne : ds ≠ [])
    (h : ∀ c ∈ ds, Char.isDigit c = true) :
    replDec fc ('&' :: '#' :: (ds ++ [';'])) = [fc (decVal ds)] := by
  rw [replDec_eq_some (@decRefAt_of_digits ds [] hne h)]
  rfl

theorem decRefAt_not_digit {x : Char} {r : Str} (hx : Char.isDigit x = false) :
    decRefAt ('&' :: '#' :: x :: r) = none := by
  unfold decRefAt
  simp [List.takeWhile_cons, hx]

theorem hexRefAt_of_hex {x : Char} {hs rest : Str} (hx : x = 'x' ∨ x = 'X')
    (hne : hs ≠ []) (h : ∀ c ∈ hs, isHexDig c = true) :
    hexRefAt ('&' :: '#' :: x :: (hs ++ ';' :: rest)) = some (hexVal hs, rest) := by
  unfold hexRefAt
  simp only
  rw [if_pos hx]
  rw [takeWhile_append_sentinel h (by decide)]
  rw [if_neg (by simp [List.isEmpty_iff, hne])]
  rw [List.drop_left]
  rfl

theorem replHex_ref {fc : Nat → Char} {x : Char} {hs : Str}
    (hx : x = 'x' ∨ x = 'X') (hne : hs ≠ [])
    (h : ∀ c ∈ hs, isHexDig c = true) :
    replHex fc ('&' :: '#' :: x :: (hs ++ [';'])) = [fc (hexVal hs)] := by
  rw [replHex_eq_some (@hexRefAt_of_hex x hs [] hx hne h)]
  rfl

theorem infix_amp_prefix {ps tail : Str} (htail : '&' ∉ tail)
    (hinf : ('&' :: ps) <:+: ('&' :: tail)) : ps <+: tail := by
  obtain ⟨pre, post, heq⟩ := hinf
  cases pre with
  | nil =>
    simp only [List.nil_append, List.cons_append, List.cons.injEq] at heq
    exact ⟨post, heq.2⟩
  | cons x pre =>
    simp only [List.cons_append, List.cons.injEq] at heq
    have hm : ('&' : Char) ∈ pre ++ ('&' :: ps) ++ post := by simp
    rw [heq.2] at hm
    exact absurd hm htail

theorem not_infix_of_second {c2 : Char} {pr : Str} {t0 : Char} {ts : Str}
    (htail : '&' ∉ (t0 :: ts)) (hne : c2 ≠ t0) :
    ¬ (('&' :: c2 :: pr) <:+: ('&' :: t0 :: ts)) := by
  intro hinf
  have hp := infix_amp_prefix htail hinf
  rw [List.cons_prefix_cons] at hp
  exact hne hp.1

theorem amp_not_mem_dec {ds : Str} (h : ∀ c ∈ ds, Char.isDigit c = true) :
    '&' ∉ ('#' :: (ds ++ [';'])) := by
  intro hmem
  rcases List.mem_cons.mp hmem with h1 | h2
  · exact absurd h1 (by decide)
  · rcases List.mem_append.mp h2 with h3 | h4
    · exact absurd (h _ h3) (by decide)
    · simp at h4

theorem amp_not_mem_hex {x : Char} {hs : Str} (hx : x = 'x' ∨ x = 'X')
    (h : ∀ c ∈ hs, isHexDig c = true) :
    '&' ∉ ('#' :: x :: (hs ++ [';'])) := by
  intro hmem
  rcases List.mem_cons.mp hmem with h1 | h2
  · exact absurd h1 (by decide)
  · rcases List.mem_cons.mp h2 with h1 | h2
    · rcases hx with hx | hx <;> rw [hx] at h1 <;> exact absurd h1 (by decide)
    · rcases List.mem_append.mp h2 with h3 | h4
      · exact absurd (h _ h3) (by decide)
      · simp at h4

theorem not_prefix_39 {ds : Str} (hds : ∀ c ∈ ds, Char.isDigit c = true)
    (hne39 : ds ≠ ['3', '9']) :
    ¬ (('3' :: '9' :: ';' :: []) <+: (ds ++ [';'])) := by
  intro hp
  cases ds with
  | nil =>
    rw [List.nil_append, List.cons_prefix_cons] at hp
    exact absurd hp.1 (by decide)
  | cons d1 ds1 =>
    rw [List.cons_append, List.cons_prefix_cons] at hp
    obtain ⟨h31, hp⟩ := hp
    cases ds1 with
    | nil =>
      rw [List.nil_append, List.cons_prefix_cons] at hp
      exact absurd hp.1 (by decide)
    | cons d2 ds2 =>
      rw [List.cons_append, List.cons_prefix_cons] at hp
      obtain ⟨h92, hp⟩ := hp
      cases ds2 with
      | nil =>
        exact hne39 (by rw [← h31, ← h92])
      | cons d3 ds3 =>
        rw [List.cons_append, List.cons_prefix_cons] at hp
        have hd3 := hds d3 (by simp)
        rw [← hp.1] at hd3
        exact absurd hd3 (by decide)

/-- C5 (amended): the entity decoder maps each of the named references to
its literal character; every decimal reference `&#d…d;` decodes to
`fromCharCode` of its value, every hexadecimal reference `&#xh…h;` to
`fromCharCode` of its value, and `fromCharCode` equals the character with
that code exactly on values below 65536 (it truncates larger values
modulo 65536). -/
theorem entity_decoder :
    decodeEntities ("&amp;".toList) = "&".toList ∧
    decodeEntities ("&lt;".toList) = "<".toList ∧
    decodeEntities ("&gt;".toList) = ">".toList ∧
    decodeEntities ("&quot;".toList) = "\"".toList ∧
    decodeEntities ("&#39;".toList) = [aposC] ∧
    (∀ ds : Str, ds ≠ [] → (∀ c ∈ ds, Char.isDigit c = true) →
        decodeEntities ('&' :: '#' :: (ds ++ [';']))
          = [fromCharCode (decVal ds)]) ∧
    (∀ (x : Char) (hs : Str), (x = 'x' ∨ x = 'X') → hs ≠ [] →
        (∀ c ∈ hs, isHexDig c = true) →
        decodeEntities ('&' :: '#' :: x :: (hs ++ [';']))
          = [fromCharCode (hexVal hs)]) ∧
    (∀ n : Nat, n < 65536 → fromCharCode n = Char.ofNat n) := by
  refine ⟨by decide, by decide, by decide, by decide, by decide, ?_, ?_, ?_⟩
  · intro ds hne hds
    by_cases h39 : ds = ['3', '9']
    · subst h39
      decide
    · have hmem := amp_not_mem_dec hds
      have hamp : replStr ("&amp;".toList) ("&".toList)
            ('&' :: '#' :: (ds ++ [';'])) = '&' :: '#' :: (ds ++ [';']) :=
        replStr_of_not_infix (not_infix_of_second hmem (by decide))
      have hlt : replStr ("&lt;".toList) ("<".toList)
            ('&' :: '#' :: (ds ++ [';'])) = '&' :: '#' :: (ds ++ [';']) :=
        replStr_of_not_infix (not_infix_of_second hmem (by decide))
      have hgt : replStr ("&gt;".toList) (">".toList)
            ('&' :: '#' :: (ds ++ [';'])) = '&' :: '#' :: (ds ++ [';']) :=
        replStr_of_not_infix (not_infix_of_second hmem (by decide))
      have hquot : replStr ("&quot;".toList) ("\"".toList)
            ('&' :: '#' :: (ds ++ [';'])) = '&' :: '#' :: (ds ++ [';']) :=
        replStr_of_not_infix (not_infix_of_second hmem (by decide))
      have h39r : replStr ("&#39;".toList) [aposC]
            ('&' :: '#' :: (ds ++ [';'])) = '&' :: '#' :: (ds ++ [';']) := by
        refine replStr_of_not_infix ?_
        intro hinf
        have hp := infix_amp_prefix hmem hinf
        rw [List.cons_prefix_cons] at hp
        exact not_prefix_39 hds h39 hp.2
      have hapos : replStr ("&apos;".toList) [aposC]
            ('&' :: '#' :: (ds ++ [';'])) = '&' :: '#' :: (ds ++ [';']) :=
        replStr_of_not_infix (not_infix_of_second hmem (by decide))
      unfold decodeEntities
      rw [hamp, hlt, hgt, hquot, h39r, hapos, replDec_ref hne hds, replHex_one]
  · intro x hs hx hne hhs
    have hmem := amp_not_mem_hex hx hhs
    have hamp : replStr ("&amp;".toList) ("&".toList)
          ('&' :: '#' :: x :: (hs ++ [';'])) = '&' :: '#' :: x :: (hs ++ [';']) :=
      replStr_of_not_infix (not_infix_of_second hmem (by decide))
    have hlt : replStr ("&lt;".toList) ("<".toList)
          ('&' :: '#' :: x :: (hs ++ [';'])) = '&' :: '#' :: x :: (hs ++ [';']) :=
      replStr_of_not_infix (not_infix_of_second hmem (by decide))
    have hgt : replStr ("&gt;".toList) (">".toList)
          ('&' :: '#' :: x :: (hs ++ [';'])) = '&' :: '#' :: x :: (hs ++ [';']) :=
      replStr_of_not_infix (not_infix_of_second hmem (by decide))
    have hquot : replStr ("&quot;".toList) ("\"".toList)
          ('&' :: '#' :: x :: (hs ++ [';'])) = '&' :: '#' :: x :: (hs ++ [';']) :=
      replStr_of_not_infix (not_infix_of_second hmem (by decide))
    have h39r : replStr ("&#39;".toList) [aposC]
          ('&' :: '#' :: x :: (hs ++ [';'])) = '&' :: '#' :: x :: (hs ++ [';']) := by
      refine replStr_of_not_infix ?_
      intro hinf
      have hp := infix_amp_prefix hmem hinf
      rw [List.cons_prefix_cons] at hp
      have hp2 := hp.2
      rw [List.cons_prefix_cons] at hp2
      rcases hx with h | h <;> rw [h] at hp2 <;> exact absurd hp2.1 (by decide)
    have hapos : replStr ("&apos;".toList) [aposC]
          ('&' :: '#' :: x :: (hs ++ [';'])) = '&' :: '#' :: x :: (hs ++ [';']) :=
      replStr_of_not_infix (not_infix_of_second hmem (by decide))
    have hxd : Char.isDigit x = false := by
      rcases hx with h | h <;> rw [h] <;> decide
    have hdec : replDec fromCharCode ('&' :: '#' :: x :: (hs ++ [';']))
        = '&' :: '#' :: x :: (hs ++ [';']) := by
      rw [replDec_eq_none (decRefAt_not_digit hxd)]
      exact congrArg ('&' :: ·) (replDec_of_no_amp hmem)
    unfold decodeEntities
    rw [hamp, hlt, hgt, hquot, h39r, hapos, hdec, replHex_ref hx hne hhs]
  · intro n hn
    unfold fromCharCode
    rw [Nat.mod_eq_of_lt hn]

/-- C5 counterexample: `String.fromCharCode` truncates its argument
modulo 65536, so the decimal reference with value 65600 decodes to `@`
(code 64), not to the character with code point 65600 — the decoder does
not map every numeric reference to the corresponding literal character. -/
theorem entity_decoder_counterexample :
    decodeEntities ("&#65600;".toList) = ['@'] ∧ Char.ofNat 65600 ≠ '@' := by
  exact ⟨by decide, by decide⟩

/-- Witness for C5 at the concrete references named in the spec. -/
theorem entity_decoder_witness :
    decodeEntities ('&' :: '#' :: ("65".toList ++ [';']))
      = [fromCharCode (decVal ("65".toList))] ∧
    decodeEntities ('&' :: '#' :: 'x' :: ("41".toList ++ [';']))
      = [fromCharCode (hexVal ("41".toList))] ∧
    fromCharCode 65 = Char.ofNat 65 :=
  ⟨entity_decoder.2.2.2.2.2.1 ("65".toList) (by decide) (by decide),
   entity_decoder.2.2.2.2.2.2.1 'x' ("41".toList) (Or.inl rfl) (by decide) (by decide),
   entity_decoder.2.2.2.2.2.2.2 65 (by decide)⟩

end FTN
